/-
  Verification of the Photeditor pixel-processing core and edit history.

  The JS sources are shallowly embedded: image data arrays become flat
  `List ℚ` values (4 rational channel samples per pixel, row-major), the
  floating-point intermediates of the pixel math become exact rationals,
  and the stateful classes (HistoryManager, BackgroundRemover) become
  explicit state-passing functions.
-/
import Mathlib

namespace Photeditor

/-- An `ImageData`-like raster: width, height and a flat row-major channel
array, 4 samples (R,G,B,A) per pixel.  Channel values are rationals standing
for the JS number intermediates; a byte-valued buffer has all entries
integral in `[0,255]`. -/
structure ImageDataQ where
  width : ℕ
  height : ℕ
  data : List ℚ
deriving DecidableEq

/-- All channel samples of a data array lie in the byte range `[0,255]`
(the `PixelBuffer` invariant: 8-bit unsigned samples). -/
def ValidData (d : List ℚ) : Prop := ∀ v ∈ d, 0 ≤ v ∧ v ≤ 255

instance (d : List ℚ) : Decidable (ValidData d) := by
  unfold ValidData; infer_instance

/-- The eight adjustment controls of `applyAdjustments`
(ImageEditor.js), as exact rationals. -/
structure Adjustments where
  exposure : ℚ
  brightness : ℚ
  contrast : ℚ
  temperature : ℚ
  highlights : ℚ
  shadows : ℚ
  saturation : ℚ
  sharpness : ℚ
deriving DecidableEq

/-- The all-zero default adjustment state. -/
def zeroAdjustments : Adjustments :=
  { exposure := 0, brightness := 0, contrast := 0, temperature := 0,
    highlights := 0, shadows := 0, saturation := 0, sharpness := 0 }

/-- `Math.max(0, Math.min(255, v))`, the clamp used throughout
ImageEditor.js. -/
def clampChan (v : ℚ) : ℚ := max 0 (min 255 v)

/-- The body of the per-pixel adjustment loop of `applyAdjustments`
(ImageEditor.js lines 42–109): sequential conditional updates of the three
channel variables, followed by the single clamp of each channel. -/
def adjustTriple (adj : Adjustments) (r0 g0 b0 : ℚ) : ℚ × ℚ × ℚ :=
  -- (r, g, b) threaded as one triple `t`: `t.1`, `t.2.1`, `t.2.2` are the
  -- mutable channel variables r, g, b of the JS loop body.
  let t : ℚ × ℚ × ℚ := (r0, g0, b0)
  -- Exposure (applied first as it affects the base values)
  let t :=
    if adj.exposure ≠ 0 then
      let factor := 1 + adj.exposure / 100
      (t.1 * factor, t.2.1 * factor, t.2.2 * factor)
    else t
  -- Brightness
  let t :=
    if adj.brightness ≠ 0 then
      let adjustment := adj.brightness * 2.55
      (t.1 + adjustment, t.2.1 + adjustment, t.2.2 + adjustment)
    else t
  -- Contrast
  let t :=
    if adj.contrast ≠ 0 then
      let factor := (259 * (adj.contrast + 255)) / (255 * (259 - adj.contrast))
      (factor * (t.1 - 128) + 128, factor * (t.2.1 - 128) + 128, factor * (t.2.2 - 128) + 128)
    else t
  -- Temperature (warm/cool)
  let t :=
    if adj.temperature ≠ 0 then
      let temp := adj.temperature * 0.5
      (t.1 + temp, t.2.1, t.2.2 - temp)
    else t
  -- Highlights (affect bright areas more)
  let t :=
    if adj.highlights ≠ 0 then
      let luminance := (t.1 + t.2.1 + t.2.2) / 3
      let highlightFactor := max 0 ((luminance - 128) / 127)
      let adjustment := adj.highlights * highlightFactor * 0.5
      (t.1 + adjustment, t.2.1 + adjustment, t.2.2 + adjustment)
    else t
  -- Shadows (affect dark areas more)
  let t :=
    if adj.shadows ≠ 0 then
      let luminance := (t.1 + t.2.1 + t.2.2) / 3
      let shadowFactor := max 0 ((128 - luminance) / 128)
      let adjustment := adj.shadows * shadowFactor * 0.5
      (t.1 + adjustment, t.2.1 + adjustment, t.2.2 + adjustment)
    else t
  -- Saturation
  let t :=
    if adj.saturation ≠ 0 then
      let gray := 0.2989 * t.1 + 0.587 * t.2.1 + 0.114 * t.2.2
      let factor := 1 + adj.saturation / 100
      (gray + factor * (t.1 - gray), gray + factor * (t.2.1 - gray), gray + factor * (t.2.2 - gray))
    else t
  -- Clamp values
  (clampChan t.1, clampChan t.2.1, clampChan t.2.2)

/-- The per-pixel adjustment loop of `applyAdjustments`: the data array is
traversed with stride 4, the body rewrites R,G,B and leaves A in place. -/
def adjustData (adj : Adjustments) : List ℚ → List ℚ
  | r :: g :: b :: a :: rest =>
      let t := adjustTriple adj r g b
      t.1 :: t.2.1 :: t.2.2 :: a :: adjustData adj rest
  | rest => rest

/-! Spec-side step functions (one per numbered step of spec §4.1), each
guarded by its parameter being non-zero, with no clamping inside; used to
state that the code's pixel pipeline is their composition in the fixed
order exposure → brightness → contrast → temperature → highlights →
shadows → saturation with a single final clamp. -/

/-- Spec §4.1 step 1: multiply R,G,B by `1 + exposure/100` when exposure
is non-zero. -/
def specExposure (adj : Adjustments) (t : ℚ × ℚ × ℚ) : ℚ × ℚ × ℚ :=
  if adj.exposure ≠ 0 then
    let factor := 1 + adj.exposure / 100
    (t.1 * factor, t.2.1 * factor, t.2.2 * factor)
  else t

/-- Spec §4.1 step 2: add `brightness × 2.55` to R,G,B when brightness is
non-zero. -/
def specBrightness (adj : Adjustments) (t : ℚ × ℚ × ℚ) : ℚ × ℚ × ℚ :=
  if adj.brightness ≠ 0 then
    let adjustment := adj.brightness * 2.55
    (t.1 + adjustment, t.2.1 + adjustment, t.2.2 + adjustment)
  else t

/-- Spec §4.1 step 3: scale each channel around 128 by the contrast
factor when contrast is non-zero. -/
def specContrast (adj : Adjustments) (t : ℚ × ℚ × ℚ) : ℚ × ℚ × ℚ :=
  if adj.contrast ≠ 0 then
    let factor := (259 * (adj.contrast + 255)) / (255 * (259 - adj.contrast))
    (factor * (t.1 - 128) + 128, factor * (t.2.1 - 128) + 128, factor * (t.2.2 - 128) + 128)
  else t

/-- Spec §4.1 step 4: add `temperature × 0.5` to R and subtract it from B
when temperature is non-zero. -/
def specTemperature (adj : Adjustments) (t : ℚ × ℚ × ℚ) : ℚ × ℚ × ℚ :=
  if adj.temperature ≠ 0 then
    let temp := adj.temperature * 0.5
    (t.1 + temp, t.2.1, t.2.2 - temp)
  else t

/-- Spec §4.1 step 5: highlights, weighted by `max 0 ((luminance−128)/127)`
on the current luminance, when highlights is non-zero. -/
def specHighlights (adj : Adjustments) (t : ℚ × ℚ × ℚ) : ℚ × ℚ × ℚ :=
  if adj.highlights ≠ 0 then
    let luminance := (t.1 + t.2.1 + t.2.2) / 3
    let highlightFactor := max 0 ((luminance - 128) / 127)
    let adjustment := adj.highlights * highlightFactor * 0.5
    (t.1 + adjustment, t.2.1 + adjustment, t.2.2 + adjustment)
  else t

/-- Spec §4.1 step 6: shadows, weighted by `max 0 ((128−luminance)/128)`
on the current luminance, when shadows is non-zero. -/
def specShadows (adj : Adjustments) (t : ℚ × ℚ × ℚ) : ℚ × ℚ × ℚ :=
  if adj.shadows ≠ 0 then
    let luminance := (t.1 + t.2.1 + t.2.2) / 3
    let shadowFactor := max 0 ((128 - luminance) / 128)
    let adjustment := adj.shadows * shadowFactor * 0.5
    (t.1 + adjustment, t.2.1 + adjustment, t.2.2 + adjustment)
  else t

/-- Spec §4.1 step 7: blend each channel toward/away from the perceptual
gray (weights 0.2989, 0.587, 0.114) by `1 + saturation/100` when
saturation is non-zero. -/
def specSaturation (adj : Adjustments) (t : ℚ × ℚ × ℚ) : ℚ × ℚ × ℚ :=
  if adj.saturation ≠ 0 then
    let gray := 0.2989 * t.1 + 0.587 * t.2.1 + 0.114 * t.2.2
    let factor := 1 + adj.saturation / 100
    (gray + factor * (t.1 - gray), gray + factor * (t.2.1 - gray), gray + factor * (t.2.2 - gray))
  else t

/-- Spec §4.1 final step: clamp each channel to `[0,255]`, exactly once. -/
def specClampTriple (t : ℚ × ℚ × ℚ) : ℚ × ℚ × ℚ :=
  (clampChan t.1, clampChan t.2.1, clampChan t.2.2)

/-! ### Sharpening (`applySharpness`, ImageEditor.js lines 130–160) -/

/-- The 3×3 unsharp-mask kernel of `applySharpness`, row-major
(ImageEditor.js lines 139–143). -/
def sharpKernel (amount : ℚ) : List ℚ :=
  [0, -amount, 0,
   -amount, 1 + 4 * amount, -amount,
   0, -amount, 0]

/-- The interior-pixel guard of the sharpening loops: channel `c < 3`
(alpha skipped) and pixel coordinates strictly inside the 1-pixel border
(`1 ≤ x < width−1`, `1 ≤ y < height−1`). -/
def sharpInterior (width height : ℕ) (idx : ℕ) : Prop :=
  idx % 4 < 3 ∧ 1 ≤ idx / 4 % width ∧ idx / 4 % width + 1 < width ∧
    1 ≤ idx / 4 / width ∧ idx / 4 / width + 1 < height

instance (w h idx : ℕ) : Decidable (sharpInterior w h idx) := by
  unfold sharpInterior; infer_instance

/-- The value the sharpening loop writes at flat index `idx`: the kernel
convolution of the frozen copy `original` for interior R,G,B samples,
clamped; every other sample keeps its original value. -/
def sharpIdx (width height : ℕ) (original : List ℚ) (amount : ℚ) (idx : ℕ) : ℚ :=
  -- `idx % 4` is the channel c, `idx / 4 % width` the column x and
  -- `idx / 4 / width` the row y of the sample at flat index `idx`.
  if sharpInterior width height idx then
    clampChan ((List.range 3).foldl (fun s ky =>
      (List.range 3).foldl (fun s2 kx =>
        s2 + (original.getD (((idx / 4 / width + ky - 1) * width +
            (idx / 4 % width + kx - 1)) * 4 + idx % 4) 0) *
          ((sharpKernel amount).getD (ky * 3 + kx) 0)) s) 0)
  else original.getD idx 0

/-- `applySharpness(imageData, amount)`: reads every neighbor from a frozen
copy of the pre-sharpen data and rewrites interior R,G,B samples with the
clamped kernel sum; the 1-pixel border and all alpha samples are left as
they were. -/
def applySharpness (img : ImageDataQ) (amount : ℚ) : ImageDataQ :=
  { img with
    data := (List.range img.data.length).map (sharpIdx img.width img.height img.data amount) }

/-! ### Color filters (`applyFilter`, ImageEditor.js lines 165–251) -/

/-- The per-pixel body of `applyFilter`'s switch: one fixed per-pixel
remap per filter id; an unknown id (including `none`, which `applyFilter`
is never called with) changes nothing. -/
def filterQuad (filter : String) (r g b a : ℚ) : ℚ × ℚ × ℚ × ℚ :=
  if filter = "vintage" then
    (min 255 (r * 1.1 + 20), min 255 (g * 0.9), min 255 (b * 0.8), a)
  else if filter = "bw" then
    let gray := r * 0.299 + g * 0.587 + b * 0.114
    (gray, gray, gray, a)
  else if filter = "sepia" then
    (min 255 (r * 0.393 + g * 0.769 + b * 0.189),
     min 255 (r * 0.349 + g * 0.686 + b * 0.168),
     min 255 (r * 0.272 + g * 0.534 + b * 0.131), a)
  else if filter = "vibrant" then
    let gray := (r + g + b) / 3
    (min 255 (gray + (r - gray) * 1.5),
     min 255 (gray + (g - gray) * 1.5),
     min 255 (gray + (b - gray) * 1.5), a)
  else if filter = "warm" then
    (min 255 (r * 1.1), min 255 (g * 1.05), max 0 (b * 0.9), a)
  else if filter = "cool" then
    (max 0 (r * 0.9), min 255 (g * 1.05), min 255 (b * 1.1), a)
  else if filter = "dramatic" then
    let gray := r * 0.299 + g * 0.587 + b * 0.114
    let factor := (1.3 : ℚ)
    (clampChan (factor * (r * 0.9 + gray * 0.1 - 128) + 128),
     clampChan (factor * (g * 0.9 + gray * 0.1 - 128) + 128),
     clampChan (factor * (b * 0.9 + gray * 0.1 - 128) + 128), a)
  else if filter = "fade" then
    (min 255 (r * 0.85 + 30), min 255 (g * 0.85 + 30), min 255 (b * 0.85 + 30), a)
  else if filter = "noir" then
    let gray := r * 0.299 + g * 0.587 + b * 0.114
    let gray := clampChan (1.4 * (gray - 128) + 128)
    let gray := if gray < 40 then gray * 0.5 else gray
    (gray, gray, gray, a)
  else (r, g, b, a)

/-- The per-pixel loop of `applyFilter`: stride-4 traversal applying
`filterQuad` to each RGBA quadruple. -/
def filterData (filter : String) : List ℚ → List ℚ
  | r :: g :: b :: a :: rest =>
      let t := filterQuad filter r g b a
      t.1 :: t.2.1 :: t.2.2.1 :: t.2.2.2 :: filterData filter rest
  | rest => rest

/-- `applyFilter(ctx, width, height, filter)` as a buffer transformer. -/
def applyFilter (img : ImageDataQ) (filter : String) : ImageDataQ :=
  { img with data := filterData filter img.data }

/-! ### `applyAdjustments` (ImageEditor.js lines 27–125) -/

/-- `applyAdjustments(sourceCanvas, adjustments, filter)`: draws the source
onto a fresh canvas (a copy of its data), runs the per-pixel adjustment
loop, then sharpening when `sharpness > 0` (with `sharpness/100`), then
the color filter when `filter ≠ none`, and returns the fresh canvas. -/
def applyAdjustments (sourceCanvas : ImageDataQ) (adjustments : Adjustments)
    (filter : String) : ImageDataQ :=
  let imageData : ImageDataQ :=
    { sourceCanvas with data := adjustData adjustments sourceCanvas.data }
  let imageData :=
    if 0 < adjustments.sharpness then
      applySharpness imageData (adjustments.sharpness / 100)
    else imageData
  if filter ≠ "none" then applyFilter imageData filter else imageData

/-- The effect of `applyAdjustments` on the canvas store: the call
allocates a fresh canvas (`document.createElement`), copies the source
into it, performs all pixel writes on the copy, and returns the new
canvas; its only store effect is appending the result.  Returns the new
store and the index of the freshly created canvas. -/
def applyAdjustmentsStore (store : List ImageDataQ) (srcIdx : ℕ)
    (adjustments : Adjustments) (filter : String) : List ImageDataQ × ℕ :=
  let src := store.getD srcIdx ⟨0, 0, []⟩
  (store ++ [applyAdjustments src adjustments filter], store.length)

/-! ### HistoryManager (src/unnamed/part_001) -/

/-- The `HistoryManager` state: the `states` stack, the `currentIndex`
cursor (an integer, `-1` when empty, as in the JS class) and the
configured `maxSize` bound. -/
structure HistoryManager (α : Type) where
  states : List α
  currentIndex : ℤ
  maxSize : ℕ
deriving DecidableEq

namespace HistoryManager

/-- `new HistoryManager(maxSize)`: empty stack, cursor `-1`
(the constructor default for `maxSize` is 20). -/
def init (α : Type) (maxSize : ℕ) : HistoryManager α :=
  { states := [], currentIndex := -1, maxSize := maxSize }

/-- `push(state)`: drop everything after the cursor
(`states.slice(0, currentIndex + 1)`), append the new state, advance the
cursor; if the length now exceeds `maxSize`, shift off the oldest state
and decrement the cursor. -/
def push (h : HistoryManager α) (state : α) : HistoryManager α :=
  -- `h.states.take (h.currentIndex + 1).toNat ++ [state]` is
  -- `this.states.slice(0, this.currentIndex + 1)` with `state` pushed;
  -- the cursor is incremented, and on overflow the array is shifted and
  -- the cursor decremented again.
  if h.maxSize < (h.states.take (h.currentIndex + 1).toNat ++ [state]).length then
    { h with states := (h.states.take (h.currentIndex + 1).toNat ++ [state]).tail,
             currentIndex := h.currentIndex + 1 - 1 }
  else
    { h with states := h.states.take (h.currentIndex + 1).toNat ++ [state],
             currentIndex := h.currentIndex + 1 }

/-- `canUndo()`: `currentIndex > 0`. -/
def canUndo (h : HistoryManager α) : Bool := 0 < h.currentIndex

/-- `canRedo()`: `currentIndex < states.length - 1`. -/
def canRedo (h : HistoryManager α) : Bool :=
  h.currentIndex < (h.states.length : ℤ) - 1

/-- `undo()`: when `canUndo`, decrement the cursor and return the entry at
the new cursor; otherwise a no-op returning nothing.  Modelled as
(new state, returned value). -/
def undo (h : HistoryManager α) : HistoryManager α × Option α :=
  if h.canUndo then
    ({ h with currentIndex := h.currentIndex - 1 },
      h.states.get? (h.currentIndex - 1).toNat)
  else (h, none)

/-- `redo()`: when `canRedo`, increment the cursor and return the entry at
the new cursor; otherwise a no-op returning nothing. -/
def redo (h : HistoryManager α) : HistoryManager α × Option α :=
  if h.canRedo then
    ({ h with currentIndex := h.currentIndex + 1 },
      h.states.get? (h.currentIndex + 1).toNat)
  else (h, none)

/-- `clear()`: back to the empty state. -/
def clear (h : HistoryManager α) : HistoryManager α :=
  { h with states := [], currentIndex := -1 }

/-- The history invariant: the cursor is `-1` exactly on the empty stack,
`0 ≤ cursor < length` on a non-empty stack, and the stack never exceeds
the configured bound. -/
def Inv (h : HistoryManager α) : Prop :=
  (h.states = [] → h.currentIndex = -1) ∧
    (h.states ≠ [] → 0 ≤ h.currentIndex ∧ h.currentIndex < h.states.length) ∧
    h.states.length ≤ h.maxSize

instance (h : HistoryManager ℕ) : Decidable (Inv h) := by
  unfold Inv; infer_instance

end HistoryManager

/-! ### BackgroundRemover (src/unnamed/part_002) -/

/-- The `BackgroundRemover` serialization state: the `isProcessing`
flag. -/
structure BackgroundRemover where
  isProcessing : Bool
deriving DecidableEq

/-- The synchronous prefix of `remove(imageBlob)` up to the external
`removeBackground` call: when `isProcessing` is set it throws the busy
error before doing anything else (state untouched, external call not
issued); otherwise it sets `isProcessing` and issues the call.  Returns
(state after the prefix, thrown error if any, whether the external
processing call was started). -/
def removeStart (br : BackgroundRemover) :
    BackgroundRemover × Option String × Bool :=
  if br.isProcessing then
    (br, some "Background removal already in progress", false)
  else
    ({ isProcessing := true }, none, true)

/-- The `finally` block of `remove`: whatever the awaited call did,
`isProcessing` is reset. -/
def removeFinish (_br : BackgroundRemover) : BackgroundRemover :=
  { isProcessing := false }

/-! ### Geometry: `rotate` and `flip` (ImageEditor.js lines 256–295) -/

/-- A canvas with real-valued extents, for `rotate`'s bounding-box
computation (the JS canvas dimensions before integer coercion). -/
structure CanvasF where
  width : ℚ
  height : ℚ
  data : List ℚ
deriving DecidableEq

/-- `rotate(sourceCanvas, degrees)`.  `Math.sin(radians)` and
`Math.cos(radians)` are abstracted as the parameters `sinv`/`cosv` (every
angle yields some such pair); the resampling performed by the canvas API
(`translate`/`rotate`/`drawImage`) is abstracted as the `resample`
parameter.  The new canvas extents are the axis-aligned bounding box of
the rotated rectangle. -/
def rotateF (resample : ℚ → ℚ → List ℚ) (src : CanvasF) (sinv cosv : ℚ) : CanvasF :=
  let sin := |sinv|
  let cos := |cosv|
  let newWidth := src.width * cos + src.height * sin
  let newHeight := src.width * sin + src.height * cos
  { width := newWidth, height := newHeight, data := resample newWidth newHeight }

/-- The effect of `rotate` on the canvas store: it only reads the source
canvas (`drawImage`) and appends the freshly created rotated canvas.
Returns the new store and the index of the new canvas. -/
def rotateStore (resample : ℚ → ℚ → List ℚ) (store : List CanvasF)
    (srcIdx : ℕ) (sinv cosv : ℚ) : List CanvasF × ℕ :=
  let src := store.getD srcIdx ⟨0, 0, []⟩
  (store ++ [rotateF resample src sinv cosv], store.length)

/-- Modelled from the spec: the pixel semantics of `flip` is produced by
the external canvas 2D API (`ctx.translate`/`ctx.scale(-1,1)`/
`ctx.drawImage`, ImageEditor.js lines 285–293), which is not part of this
repository; spec §4.4 states that flip "mirrors the image about its
center axis" with identical dimensions.  Horizontal: output pixel (x,y)
takes the source pixel (width−1−x, y); vertical (the `else` branch):
(x, height−1−y).  Channel samples move together (all 4 channels, alpha
included). -/
def flipIdx (width height : ℕ) (dta : List ℚ) (direction : String) (idx : ℕ) : ℚ :=
  -- `idx % 4` is the channel, `idx / 4 % width` the column x and
  -- `idx / 4 / width` the row y of the sample at flat index `idx`.
  if direction = "horizontal" then
    dta.getD ((idx / 4 / width * width + (width - 1 - idx / 4 % width)) * 4 + idx % 4) 0
  else
    dta.getD (((height - 1 - idx / 4 / width) * width + idx / 4 % width) * 4 + idx % 4) 0

/-- `flip(sourceCanvas, direction)`: a fresh canvas of identical
dimensions whose every sample is the mirrored sample of the source
(see `flipIdx`). -/
def flip (src : ImageDataQ) (direction : String) : ImageDataQ :=
  { src with
    data := (List.range src.data.length).map
      (flipIdx src.width src.height src.data direction) }

/-! ### Helper lemmas -/

/-- Clamping does nothing to a value already in `[0,255]`. -/
theorem clampChan_eq_self (v : ℚ) (h0 : 0 ≤ v) (h1 : v ≤ 255) : clampChan v = v := by
  unfold clampChan
  rw [min_eq_right h1, max_eq_right h0]

theorem validData_cons (x : ℚ) (l : List ℚ) :
    ValidData (x :: l) ↔ (0 ≤ x ∧ x ≤ 255) ∧ ValidData l := by
  simp [ValidData]

theorem validData_getD (l : List ℚ) (hv : ValidData l) (i : ℕ) (hi : i < l.length) :
    0 ≤ l.getD i 0 ∧ l.getD i 0 ≤ 255 := by
  rw [List.getD_eq_getElem l 0 hi]
  exact hv _ (List.getElem_mem hi)

theorem getD_map_range (f : ℕ → ℚ) (n i : ℕ) (hi : i < n) :
    ((List.range n).map f).getD i 0 = f i := by
  have hlen : i < ((List.range n).map f).length := by simpa using hi
  rw [List.getD_eq_getElem _ 0 hlen]
  simp

theorem eq_of_getD (l₁ l₂ : List ℚ) (hlen : l₁.length = l₂.length)
    (h : ∀ i, i < l₁.length → l₁.getD i 0 = l₂.getD i 0) : l₁ = l₂ := by
  apply List.ext_getElem hlen
  intro i h1 h2
  have hi := h i h1
  rwa [List.getD_eq_getElem _ 0 h1, List.getD_eq_getElem _ 0 h2] at hi

/-- Decompose a flat pixel index `p < w*h` into column `p % w` and row
`p / w`. -/
theorem pix_decomp (w h p : ℕ) (hp : p < w * h) :
    p % w < w ∧ p / w < h ∧ p / w * w + p % w = p := by
  have hw : 0 < w := by
    rcases Nat.eq_zero_or_pos w with h0 | h0
    · subst h0; simp at hp
    · exact h0
  refine ⟨Nat.mod_lt p hw, ?_, ?_⟩
  · rw [Nat.div_lt_iff_lt_mul hw]
    exact lt_of_lt_of_le hp (le_of_eq (Nat.mul_comm w h))
  · calc p / w * w + p % w = w * (p / w) + p % w := by rw [Nat.mul_comm]
      _ = p := Nat.div_add_mod p w

/-- Recompose: the flat index of column `x`, row `y` decomposes back to
`x` and `y`. -/
theorem pix_recomp (w x y : ℕ) (hx : x < w) :
    (y * w + x) % w = x ∧ (y * w + x) / w = y := by
  have hw : 0 < w := lt_of_le_of_lt (Nat.zero_le x) hx
  constructor
  · rw [Nat.add_comm, Nat.add_mul_mod_self_right, Nat.mod_eq_of_lt hx]
  · rw [Nat.add_comm, Nat.add_mul_div_right x y hw, Nat.div_eq_of_lt hx]
    omega

theorem pix_bound (w h x y : ℕ) (hx : x < w) (hy : y < h) : y * w + x < w * h := by
  calc y * w + x < y * w + w := by omega
    _ = (y + 1) * w := by ring
    _ ≤ h * w := Nat.mul_le_mul_right w (by omega)
    _ = w * h := Nat.mul_comm h w

/-- Decompose a flat channel index `idx < w*h*4` into channel, column and
row. -/
theorem flat_decomp (w h idx : ℕ) (h4 : idx < w * h * 4) :
    idx % 4 < 4 ∧ idx / 4 % w < w ∧ idx / 4 / w < h ∧
      (idx / 4 / w * w + idx / 4 % w) * 4 + idx % 4 = idx := by
  have hp : idx / 4 < w * h := by omega
  obtain ⟨h1, h2, h3⟩ := pix_decomp w h (idx / 4) hp
  refine ⟨by omega, h1, h2, ?_⟩
  have h5 : idx / 4 * 4 + idx % 4 = idx := by omega
  rw [h3, h5]

/-- Recompose a flat channel index built from in-range channel, column and
row values. -/
theorem flat_recomp (w x y c : ℕ) (hx : x < w) (hc : c < 4) :
    ((y * w + x) * 4 + c) % 4 = c ∧ ((y * w + x) * 4 + c) / 4 % w = x ∧
      ((y * w + x) * 4 + c) / 4 / w = y := by
  obtain ⟨m1, m2⟩ := pix_recomp w x y hx
  have h1 : (y * w + x) * 4 + c = c + (y * w + x) * 4 := by omega
  have hmod : ((y * w + x) * 4 + c) % 4 = c := by
    rw [h1, Nat.add_mul_mod_self_right, Nat.mod_eq_of_lt hc]
  have hdiv : ((y * w + x) * 4 + c) / 4 = y * w + x := by
    rw [h1, Nat.add_mul_div_right c (y * w + x) (by omega), Nat.div_eq_of_lt hc]
    omega
  rw [hmod, hdiv]
  exact ⟨rfl, m1, m2⟩

theorem flat_bound (w h x y c : ℕ) (hx : x < w) (hy : y < h) (hc : c < 4) :
    (y * w + x) * 4 + c < w * h * 4 := by
  have := pix_bound w h x y hx hy
  omega

/-! ### Claim theorems (continued) -/

/-- C1: per pixel the code's adjustment loop is the composition of the
seven guarded spec steps in the fixed order, clamped exactly once at the
end, with the alpha sample passed through untouched. -/
theorem c1_adjust_fixed_order_clamp_once (adj : Adjustments) (r g b a : ℚ)
    (rest : List ℚ) :
    adjustData adj (r :: g :: b :: a :: rest) =
      (specClampTriple (specSaturation adj (specShadows adj (specHighlights adj
          (specTemperature adj (specContrast adj (specBrightness adj
            (specExposure adj (r, g, b))))))))).1 ::
      (specClampTriple (specSaturation adj (specShadows adj (specHighlights adj
          (specTemperature adj (specContrast adj (specBrightness adj
            (specExposure adj (r, g, b))))))))).2.1 ::
      (specClampTriple (specSaturation adj (specShadows adj (specHighlights adj
          (specTemperature adj (specContrast adj (specBrightness adj
            (specExposure adj (r, g, b))))))))).2.2 ::
      a :: adjustData adj rest := by
  rfl

/-- The zero adjustment pixel body only clamps. -/
theorem adjustTriple_zero (r g b : ℚ) :
    adjustTriple zeroAdjustments r g b = (clampChan r, clampChan g, clampChan b) := by
  simp [adjustTriple, zeroAdjustments]

/-- The zero adjustment loop is the identity on byte-range data. -/
theorem adjustData_zero : ∀ d : List ℚ, ValidData d → adjustData zeroAdjustments d = d
  | r :: g :: b :: a :: rest, hv => by
      rw [validData_cons] at hv
      obtain ⟨hr, hv⟩ := hv
      rw [validData_cons] at hv
      obtain ⟨hg, hv⟩ := hv
      rw [validData_cons] at hv
      obtain ⟨hb, hv⟩ := hv
      rw [validData_cons] at hv
      obtain ⟨_, hv⟩ := hv
      simp only [adjustData, adjustTriple_zero]
      rw [clampChan_eq_self r hr.1 hr.2, clampChan_eq_self g hg.1 hg.2,
        clampChan_eq_self b hb.1 hb.2, adjustData_zero rest hv]
  | [], _ => rfl
  | [r], _ => rfl
  | [r, g], _ => rfl
  | [r, g, b], _ => rfl

/-- C3: with all adjustment parameters zero and the filter set to `none`,
rendering is pixel-identical to the input buffer. -/
theorem c3_zero_render_identity (img : ImageDataQ) (hv : ValidData img.data) :
    applyAdjustments img zeroAdjustments "none" = img := by
  obtain ⟨w, h, d⟩ := img
  simp [applyAdjustments, zeroAdjustments]
  exact adjustData_zero d hv

/-- C3 witness: identity rendering on a concrete 1×1 buffer. -/
theorem c3_zero_render_identity_witness :
    applyAdjustments ⟨1, 1, [10, 20, 30, 255]⟩ zeroAdjustments "none" =
      ⟨1, 1, [10, 20, 30, 255]⟩ :=
  c3_zero_render_identity ⟨1, 1, [10, 20, 30, 255]⟩ (by decide)

/-- C5: a `remove` call while one is already in flight throws the busy
error immediately: the state is untouched (the first request keeps
running, nothing is queued) and the external processing call is never
issued. -/
theorem c5_second_remove_busy (br : BackgroundRemover) (hb : br.isProcessing = true) :
    removeStart br = (br, some "Background removal already in progress", false) := by
  simp [removeStart, hb]

/-- C5 witness: the busy rejection on the concrete in-flight state. -/
theorem c5_second_remove_busy_witness :
    removeStart ⟨true⟩ = (⟨true⟩, some "Background removal already in progress", false) :=
  c5_second_remove_busy ⟨true⟩ rfl

/-- C7: the sepia filter on a pure red pixel (255,0,0,255) yields exactly
the sepia-matrix products `255×0.393`, `255×0.349`, `255×0.272`, each
already inside `[0,255]` (so the clamp returns them unchanged), with
alpha untouched. -/
theorem c7_sepia_pure_red :
    applyFilter ⟨1, 1, [255, 0, 0, 255]⟩ "sepia" =
        ⟨1, 1, [255 * 0.393, 255 * 0.349, 255 * 0.272, 255]⟩ ∧
      (0 ≤ (255 : ℚ) * 0.393 ∧ (255 : ℚ) * 0.393 ≤ 255) ∧
      (0 ≤ (255 : ℚ) * 0.349 ∧ (255 : ℚ) * 0.349 ≤ 255) ∧
      (0 ≤ (255 : ℚ) * 0.272 ∧ (255 : ℚ) * 0.272 ≤ 255) := by
  refine ⟨?_, by norm_num, by norm_num, by norm_num⟩
  show ({ width := 1, height := 1, data := filterData "sepia" [255, 0, 0, 255] } : ImageDataQ) = _
  simp only [filterData, filterQuad]
  simp
  norm_num [min_def]

/-- C10: `applyAdjustments` never writes to its source canvas: its only
store effect is appending the freshly allocated result canvas (built from
a copy of the source), so every pre-existing canvas — the source
included — is bit-identical before and after the call, and the returned
canvas is a genuinely new slot. -/
theorem c10_apply_adjustments_frame (store : List ImageDataQ) (srcIdx : ℕ)
    (adj : Adjustments) (filter : String) (hsrc : srcIdx < store.length) :
    ((applyAdjustmentsStore store srcIdx adj filter).1.getD srcIdx ⟨0, 0, []⟩ =
        store.getD srcIdx ⟨0, 0, []⟩) ∧
      (∀ j, j < store.length →
        (applyAdjustmentsStore store srcIdx adj filter).1.getD j ⟨0, 0, []⟩ =
          store.getD j ⟨0, 0, []⟩) ∧
      ((applyAdjustmentsStore store srcIdx adj filter).2 = store.length ∧
        (applyAdjustmentsStore store srcIdx adj filter).2 ≠ srcIdx) ∧
      (applyAdjustmentsStore store srcIdx adj filter).1.getD store.length ⟨0, 0, []⟩ =
        applyAdjustments (store.getD srcIdx ⟨0, 0, []⟩) adj filter := by
  have hpre : ∀ j, j < store.length →
      (store ++ [applyAdjustments (store.getD srcIdx ⟨0, 0, []⟩) adj filter]).getD j
          ⟨0, 0, []⟩ = store.getD j ⟨0, 0, []⟩ := by
    intro j hj
    rw [List.getD_eq_getElem _ _ (by simp; omega), List.getD_eq_getElem _ _ hj,
      List.getElem_append_left hj]
  refine ⟨hpre srcIdx hsrc, hpre, ⟨rfl, by show store.length ≠ srcIdx; omega⟩, ?_⟩
  show (store ++ [_]).getD store.length _ = _
  rw [List.getD_eq_getElem _ _ (by simp)]
  simp

/-- C10 witness: the frame property on a concrete one-canvas store. -/
theorem c10_apply_adjustments_frame_witness :
    (applyAdjustmentsStore [⟨1, 1, [10, 20, 30, 255]⟩] 0 zeroAdjustments "none").1.getD 0
        ⟨0, 0, []⟩ = ⟨1, 1, [10, 20, 30, 255]⟩ :=
  (c10_apply_adjustments_frame [⟨1, 1, [10, 20, 30, 255]⟩] 0 zeroAdjustments "none"
    (by decide)).1

/-- C8: `rotate` sizes the new canvas to the axis-aligned bounding box of
the rotated rectangle (`newW = W·|cos| + H·|sin|`, `newH = W·|sin| +
H·|cos|`, with sine/cosine of the angle abstracted as `sinv`/`cosv` and
the canvas-API resampling abstracted as `resample`), and only appends the
new canvas to the store: the source buffer and every other canvas are
unchanged. -/
theorem c8_rotate_bounding_box (resample : ℚ → ℚ → List ℚ) (store : List CanvasF)
    (srcIdx : ℕ) (sinv cosv : ℚ) (_hsrc : srcIdx < store.length) :
    ((rotateStore resample store srcIdx sinv cosv).1.getD store.length ⟨0, 0, []⟩).width =
        (store.getD srcIdx ⟨0, 0, []⟩).width * |cosv| +
          (store.getD srcIdx ⟨0, 0, []⟩).height * |sinv| ∧
      ((rotateStore resample store srcIdx sinv cosv).1.getD store.length ⟨0, 0, []⟩).height =
        (store.getD srcIdx ⟨0, 0, []⟩).width * |sinv| +
          (store.getD srcIdx ⟨0, 0, []⟩).height * |cosv| ∧
      (∀ j, j < store.length →
        (rotateStore resample store srcIdx sinv cosv).1.getD j ⟨0, 0, []⟩ =
          store.getD j ⟨0, 0, []⟩) ∧
      (rotateStore resample store srcIdx sinv cosv).2 = store.length := by
  have hnew : (rotateStore resample store srcIdx sinv cosv).1.getD store.length ⟨0, 0, []⟩ =
      rotateF resample (store.getD srcIdx ⟨0, 0, []⟩) sinv cosv := by
    show (store ++ [_]).getD store.length _ = _
    rw [List.getD_eq_getElem _ _ (by simp)]
    simp
  refine ⟨by rw [hnew]; rfl, by rw [hnew]; rfl, ?_, rfl⟩
  intro j hj
  show (store ++ [_]).getD j _ = _
  rw [List.getD_eq_getElem _ _ (by simp; omega), List.getD_eq_getElem _ _ hj,
    List.getElem_append_left hj]

/-- C8 witness: bounding-box dimensions for a concrete 4×2 canvas with
sin = 3/5, cos = 4/5. -/
theorem c8_rotate_bounding_box_witness :
    ((rotateStore (fun _ _ => []) [⟨4, 2, []⟩] 0 (3/5) (4/5)).1.getD 1 ⟨0, 0, []⟩).width =
      4 * |(4 : ℚ)/5| + 2 * |(3 : ℚ)/5| :=
  (c8_rotate_bounding_box (fun _ _ => []) [⟨4, 2, []⟩] 0 (3/5) (4/5) (by decide)).1

namespace HistoryManager

/-- The states array after a push: truncate after the cursor, append, and
drop the oldest entry when over the bound. -/
theorem push_states_eq (h : HistoryManager α) (e : α) :
    (h.push e).states =
      (if h.maxSize < (h.states.take (h.currentIndex + 1).toNat ++ [e]).length
       then (h.states.take (h.currentIndex + 1).toNat ++ [e]).tail
       else h.states.take (h.currentIndex + 1).toNat ++ [e]) := by
  unfold push
  split <;> rename_i hm <;> simp [hm]

/-- Core facts about `push` under the history invariant: the cursor lands
on the last entry, the bound holds afterwards, and (for a positive bound)
the pushed entry is the last one. -/
theorem push_spec (h : HistoryManager α) (e : α) (hinv : h.Inv) :
    (h.push e).currentIndex = ((h.push e).states.length : ℤ) - 1 ∧
      (h.push e).states.length ≤ h.maxSize ∧
      (0 < h.maxSize → (h.push e).states.getLast? = some e) := by
  obtain ⟨hemp, hne, hbound⟩ := hinv
  have hrange : h.currentIndex = -1 ∨
      (0 ≤ h.currentIndex ∧ h.currentIndex < h.states.length) := by
    by_cases hs : h.states = []
    · exact Or.inl (hemp hs)
    · exact Or.inr (hne hs)
  have hemptyc : h.states = [] → h.currentIndex = -1 := hemp
  have hn : (h.currentIndex + 1).toNat ≤ h.states.length := by
    rcases hrange with hr | hr
    · omega
    · omega
  have hge : -1 ≤ h.currentIndex := by
    rcases hrange with hr | hr <;> omega
  have hl : (h.states.take (h.currentIndex + 1).toNat).length =
      (h.currentIndex + 1).toNat := by
    rw [List.length_take]; omega
  unfold push
  split
  · rename_i hm
    rw [List.length_append, hl] at hm
    simp only [List.length_cons, List.length_nil] at hm
    refine ⟨?_, ?_, ?_⟩
    · dsimp only
      rw [List.length_tail, List.length_append, hl]
      simp only [List.length_cons, List.length_nil]
      omega
    · dsimp only
      rw [List.length_tail, List.length_append, hl]
      simp only [List.length_cons, List.length_nil]
      omega
    · intro hmpos
      dsimp only
      rcases hq : h.states.take (h.currentIndex + 1).toNat with _ | ⟨x, xs⟩
      · rw [hq] at hl
        simp only [List.length_nil] at hl
        omega
      · rw [List.cons_append, List.tail_cons]
        exact List.getLast?_concat _
  · rename_i hm
    rw [List.length_append, hl] at hm
    simp only [List.length_cons, List.length_nil] at hm
    refine ⟨?_, ?_, ?_⟩
    · dsimp only
      rw [List.length_append, hl]
      simp only [List.length_cons, List.length_nil]
      omega
    · dsimp only
      rw [List.length_append, hl]
      simp only [List.length_cons, List.length_nil]
      omega
    · intro _
      dsimp only
      exact List.getLast?_concat _

/-- `push` preserves the history invariant. -/
theorem push_inv (h : HistoryManager α) (e : α) (hinv : h.Inv) : (h.push e).Inv := by
  obtain ⟨hc, hb, hl⟩ := push_spec h e hinv
  have hm : (h.push e).maxSize = h.maxSize := by
    unfold push; split <;> rfl
  refine ⟨?_, ?_, ?_⟩
  · intro hs
    rw [hs] at hc
    simpa using hc
  · intro hs
    have : 0 < (h.push e).states.length := List.length_pos.mpr hs
    omega
  · omega

/-- `undo` preserves the history invariant. -/
theorem undo_inv (h : HistoryManager α) (hinv : h.Inv) : (h.undo).1.Inv := by
  obtain ⟨hemp, hne, hbound⟩ := hinv
  unfold undo
  split
  · rename_i hcu
    have hi : 0 < h.currentIndex := by
      simpa [canUndo] using hcu
    have hs : h.states ≠ [] := by
      intro hs
      have := hemp hs
      omega
    obtain ⟨h0, h1⟩ := hne hs
    refine ⟨fun hs' => absurd hs' hs, fun _ => ⟨?_, ?_⟩, ?_⟩ <;> dsimp only <;> omega
  · exact ⟨hemp, hne, hbound⟩

/-- `redo` preserves the history invariant. -/
theorem redo_inv (h : HistoryManager α) (hinv : h.Inv) : (h.redo).1.Inv := by
  obtain ⟨hemp, hne, hbound⟩ := hinv
  unfold redo
  split
  · rename_i hcr
    have hi : h.currentIndex < (h.states.length : ℤ) - 1 := by
      simpa [canRedo] using hcr
    have hs : h.states ≠ [] := by
      intro hs
      have := hemp hs
      rw [hs] at hi
      simp at hi
      omega
    obtain ⟨h0, h1⟩ := hne hs
    refine ⟨fun hs' => absurd hs' hs, fun _ => ⟨?_, ?_⟩, ?_⟩ <;> dsimp only <;> omega
  · exact ⟨hemp, hne, hbound⟩

/-- `clear` restores the initial (empty) invariant. -/
theorem clear_inv (h : HistoryManager α) : (h.clear).Inv := by
  refine ⟨fun _ => rfl, fun hs => absurd rfl hs, ?_⟩
  show (List.length []) ≤ h.maxSize
  simp

/-- The constructor state satisfies the invariant. -/
theorem init_inv (α : Type) (m : ℕ) : (init α m).Inv := by
  refine ⟨fun _ => rfl, fun hs => absurd rfl hs, ?_⟩
  show (List.length []) ≤ m
  simp

end HistoryManager

/-- C2: `push` truncates the redo branch, appends, advances the cursor and
evicts the oldest entry when over the bound, leaving the cursor on the
last pushed entry within the bound; concretely, after push 1, push 2,
push 3 the cursor is 2, `undo` returns state 2 with cursor 1, pushing 4
yields `[1, 2, 4]` with cursor 2, and `redo` then returns nothing. -/
theorem c2_push_truncate_append_evict (h : HistoryManager α) (e : α) (hinv : h.Inv) :
    ((h.push e).states =
        (if h.maxSize < (h.states.take (h.currentIndex + 1).toNat ++ [e]).length
         then (h.states.take (h.currentIndex + 1).toNat ++ [e]).tail
         else h.states.take (h.currentIndex + 1).toNat ++ [e])) ∧
      (h.push e).currentIndex = ((h.push e).states.length : ℤ) - 1 ∧
      (h.push e).states.length ≤ h.maxSize ∧
      (0 < h.maxSize → (h.push e).states.getLast? = some e) ∧
      (let h3 := (((HistoryManager.init ℕ 20).push 1).push 2).push 3
       h3.currentIndex = 2 ∧ h3.undo.2 = some 2 ∧ h3.undo.1.currentIndex = 1 ∧
         (h3.undo.1.push 4).states = [1, 2, 4] ∧
         (h3.undo.1.push 4).currentIndex = 2 ∧
         (h3.undo.1.push 4).redo.2 = none) := by
  obtain ⟨hc, hb, hl⟩ := HistoryManager.push_spec h e hinv
  exact ⟨HistoryManager.push_states_eq h e, hc, hb, hl, by decide⟩

/-- C2 witness: the bound/cursor facts at a concrete non-empty history. -/
theorem c2_push_truncate_append_evict_witness :
    ((⟨[10, 20], 1, 2⟩ : HistoryManager ℕ).push 30).states.getLast? = some 30 :=
  (c2_push_truncate_append_evict (⟨[10, 20], 1, 2⟩ : HistoryManager ℕ) 30
    (by decide)).2.2.2.1 (by decide)

/-- C6: the edit-history invariant — cursor in `[0, length)` on a
non-empty stack (and `-1` exactly when empty) with the length never
exceeding the configured bound — holds initially and is preserved by
`push`, `undo`, `redo` and `clear`. -/
theorem c6_history_invariant (α : Type) (m : ℕ) (h : HistoryManager α) (e : α)
    (hinv : h.Inv) :
    (HistoryManager.init α m).Inv ∧ (h.push e).Inv ∧ (h.undo).1.Inv ∧
      (h.redo).1.Inv ∧ (h.clear).Inv :=
  ⟨HistoryManager.init_inv α m, HistoryManager.push_inv h e hinv,
    HistoryManager.undo_inv h hinv, HistoryManager.redo_inv h hinv,
    HistoryManager.clear_inv h⟩

/-- Structure extensionality for image buffers. -/
theorem ImageDataQ.ext_eq (a b : ImageDataQ) (h1 : a.width = b.width)
    (h2 : a.height = b.height) (h3 : a.data = b.data) : a = b := by
  cases a; cases b; simp_all

theorem applySharpness_length (img : ImageDataQ) (amount : ℚ) :
    (applySharpness img amount).data.length = img.data.length := by
  simp [applySharpness]

/-- C4: the sharpening convolution computes, for every interior R,G,B
sample, the clamped unsharp-mask sum `(1+4·amount)·center −
amount·(orthogonal neighbors)` — diagonal neighbors have weight 0 — read
entirely from the frozen pre-sharpen data; every border sample and every
alpha sample keeps its pre-sharpen value for any amount, and amount 0
leaves a byte-range buffer unchanged. -/
theorem c4_sharpen_kernel_border_zero (img : ImageDataQ) (amount : ℚ)
    (hlen : img.data.length = img.width * img.height * 4) :
    (∀ x y c, 1 ≤ x → x + 1 < img.width → 1 ≤ y → y + 1 < img.height → c < 3 →
      (applySharpness img amount).data.getD ((y * img.width + x) * 4 + c) 0 =
        clampChan ((1 + 4 * amount) *
            img.data.getD ((y * img.width + x) * 4 + c) 0 -
          amount * (img.data.getD (((y - 1) * img.width + x) * 4 + c) 0 +
            img.data.getD ((y * img.width + (x - 1)) * 4 + c) 0 +
            img.data.getD ((y * img.width + (x + 1)) * 4 + c) 0 +
            img.data.getD (((y + 1) * img.width + x) * 4 + c) 0))) ∧
      (∀ x y c, x < img.width → y < img.height → c < 4 →
        (x = 0 ∨ x + 1 = img.width ∨ y = 0 ∨ y + 1 = img.height ∨ c = 3) →
        (applySharpness img amount).data.getD ((y * img.width + x) * 4 + c) 0 =
          img.data.getD ((y * img.width + x) * 4 + c) 0) ∧
      (ValidData img.data → applySharpness img 0 = img) := by
  have key1 : ∀ (amt : ℚ) (x y c : ℕ), 1 ≤ x → x + 1 < img.width → 1 ≤ y →
      y + 1 < img.height → c < 3 →
      (applySharpness img amt).data.getD ((y * img.width + x) * 4 + c) 0 =
        clampChan ((1 + 4 * amt) *
            img.data.getD ((y * img.width + x) * 4 + c) 0 -
          amt * (img.data.getD (((y - 1) * img.width + x) * 4 + c) 0 +
            img.data.getD ((y * img.width + (x - 1)) * 4 + c) 0 +
            img.data.getD ((y * img.width + (x + 1)) * 4 + c) 0 +
            img.data.getD (((y + 1) * img.width + x) * 4 + c) 0)) := by
    intro amt x y c hx1 hx2 hy1 hy2 hc
    have hxw : x < img.width := by omega
    have hyh : y < img.height := by omega
    have hcw : c < 4 := by omega
    have hb := flat_bound img.width img.height x y c hxw hyh hcw
    obtain ⟨m1, m2, m3⟩ := flat_recomp img.width x y c hxw hcw
    simp only [applySharpness]
    rw [getD_map_range _ _ _ (by omega)]
    unfold sharpIdx
    have hg : sharpInterior img.width img.height ((y * img.width + x) * 4 + c) := by
      unfold sharpInterior
      rw [m1, m2, m3]
      exact ⟨hc, hx1, hx2, hy1, hy2⟩
    rw [if_pos hg]
    have hr3 : List.range 3 = [0, 1, 2] := rfl
    rw [hr3]
    simp only [List.foldl_cons, List.foldl_nil]
    rw [m1, m2, m3]
    have k00 : (sharpKernel amt).getD (0 * 3 + 0) 0 = 0 := rfl
    have k01 : (sharpKernel amt).getD (0 * 3 + 1) 0 = -amt := rfl
    have k02 : (sharpKernel amt).getD (0 * 3 + 2) 0 = 0 := rfl
    have k10 : (sharpKernel amt).getD (1 * 3 + 0) 0 = -amt := rfl
    have k11 : (sharpKernel amt).getD (1 * 3 + 1) 0 = 1 + 4 * amt := rfl
    have k12 : (sharpKernel amt).getD (1 * 3 + 2) 0 = -amt := rfl
    have k20 : (sharpKernel amt).getD (2 * 3 + 0) 0 = 0 := rfl
    have k21 : (sharpKernel amt).getD (2 * 3 + 1) 0 = -amt := rfl
    have k22 : (sharpKernel amt).getD (2 * 3 + 2) 0 = 0 := rfl
    rw [k00, k01, k02, k10, k11, k12, k20, k21, k22]
    have e0 : ∀ n : ℕ, n + 0 - 1 = n - 1 := fun n => rfl
    have e1 : ∀ n : ℕ, n + 1 - 1 = n := fun n => rfl
    have e2 : ∀ n : ℕ, n + 2 - 1 = n + 1 := fun n => rfl
    simp only [e0, e1, e2]
    congr 1
    ring
  have key2 : ∀ (amt : ℚ) (x y c : ℕ), x < img.width → y < img.height → c < 4 →
      (x = 0 ∨ x + 1 = img.width ∨ y = 0 ∨ y + 1 = img.height ∨ c = 3) →
      (applySharpness img amt).data.getD ((y * img.width + x) * 4 + c) 0 =
        img.data.getD ((y * img.width + x) * 4 + c) 0 := by
    intro amt x y c hx hy hc hdis
    have hb := flat_bound img.width img.height x y c hx hy hc
    obtain ⟨m1, m2, m3⟩ := flat_recomp img.width x y c hx hc
    simp only [applySharpness]
    rw [getD_map_range _ _ _ (by omega)]
    unfold sharpIdx
    have hg : ¬ sharpInterior img.width img.height ((y * img.width + x) * 4 + c) := by
      unfold sharpInterior
      rw [m1, m2, m3]
      omega
    rw [if_neg hg]
  refine ⟨key1 amount, key2 amount, ?_⟩
  intro hv
  refine ImageDataQ.ext_eq _ _ rfl rfl ?_
  apply eq_of_getD
  · rw [applySharpness_length]
  · intro i hi
    rw [applySharpness_length] at hi
    obtain ⟨hc4, hxw, hyh, hrec⟩ := flat_decomp img.width img.height i (by omega)
    by_cases hint : sharpInterior img.width img.height i
    · obtain ⟨g1, g2, g3, g4, g5⟩ := hint
      have hkey := key1 0 (i / 4 % img.width) (i / 4 / img.width) (i % 4) g2 g3 g4 g5 g1
      rw [hrec] at hkey
      rw [hkey]
      have hb2 := validData_getD img.data hv i hi
      have harith : ∀ v u : ℚ, (1 + 4 * 0) * v - 0 * u = v := by intro v u; ring
      rw [harith]
      exact clampChan_eq_self _ hb2.1 hb2.2
    · have hdis : i / 4 % img.width = 0 ∨ i / 4 % img.width + 1 = img.width ∨
          i / 4 / img.width = 0 ∨ i / 4 / img.width + 1 = img.height ∨ i % 4 = 3 := by
        unfold sharpInterior at hint
        revert hint hxw hyh hc4
        generalize i / 4 % img.width = x
        generalize i / 4 / img.width = y
        generalize i % 4 = c
        intro hc4 hxw hyh hint
        omega
      have hkey := key2 0 (i / 4 % img.width) (i / 4 / img.width) (i % 4) hxw hyh hc4 hdis
      rw [hrec] at hkey
      exact hkey

/-- C4 witness: amount 0 leaves a concrete valid 3×3 buffer unchanged. -/
theorem c4_sharpen_kernel_border_zero_witness :
    applySharpness
        ⟨3, 3, [1, 2, 3, 255, 4, 5, 6, 255, 7, 8, 9, 255,
                10, 11, 12, 255, 13, 14, 15, 255, 16, 17, 18, 255,
                19, 20, 21, 255, 22, 23, 24, 255, 25, 26, 27, 255]⟩ 0 =
      ⟨3, 3, [1, 2, 3, 255, 4, 5, 6, 255, 7, 8, 9, 255,
              10, 11, 12, 255, 13, 14, 15, 255, 16, 17, 18, 255,
              19, 20, 21, 255, 22, 23, 24, 255, 25, 26, 27, 255]⟩ :=
  (c4_sharpen_kernel_border_zero
      ⟨3, 3, [1, 2, 3, 255, 4, 5, 6, 255, 7, 8, 9, 255,
              10, 11, 12, 255, 13, 14, 15, 255, 16, 17, 18, 255,
              19, 20, 21, 255, 22, 23, 24, 255, 25, 26, 27, 255]⟩ 0
      (by decide)).2.2 (by decide)

theorem flip_length (img : ImageDataQ) (dir : String) :
    (flip img dir).data.length = img.data.length := by
  simp [flip]

/-- The sample a horizontal flip stores at (x, y, c): the source sample at
(width−1−x, y, c). -/
theorem flip_h_getD (img : ImageDataQ)
    (hlen : img.data.length = img.width * img.height * 4) (x y c : ℕ)
    (hx : x < img.width) (hy : y < img.height) (hc : c < 4) :
    (flip img "horizontal").data.getD ((y * img.width + x) * 4 + c) 0 =
      img.data.getD ((y * img.width + (img.width - 1 - x)) * 4 + c) 0 := by
  have hb := flat_bound img.width img.height x y c hx hy hc
  obtain ⟨m1, m2, m3⟩ := flat_recomp img.width x y c hx hc
  simp only [flip]
  rw [getD_map_range _ _ _ (by omega)]
  unfold flipIdx
  rw [if_pos rfl, m1, m2, m3]

/-- The sample a vertical flip stores at (x, y, c): the source sample at
(x, height−1−y, c). -/
theorem flip_v_getD (img : ImageDataQ)
    (hlen : img.data.length = img.width * img.height * 4) (x y c : ℕ)
    (hx : x < img.width) (hy : y < img.height) (hc : c < 4) :
    (flip img "vertical").data.getD ((y * img.width + x) * 4 + c) 0 =
      img.data.getD (((img.height - 1 - y) * img.width + x) * 4 + c) 0 := by
  have hb := flat_bound img.width img.height x y c hx hy hc
  obtain ⟨m1, m2, m3⟩ := flat_recomp img.width x y c hx hc
  simp only [flip]
  rw [getD_map_range _ _ _ (by omega)]
  unfold flipIdx
  rw [if_neg (by decide), m1, m2, m3]

/-- Flipping twice about the horizontal axis restores every sample. -/
theorem flip_h_involution (img : ImageDataQ)
    (hlen : img.data.length = img.width * img.height * 4) :
    flip (flip img "horizontal") "horizontal" = img := by
  refine ImageDataQ.ext_eq _ _ rfl rfl ?_
  apply eq_of_getD
  · rw [flip_length, flip_length]
  · intro i hi
    rw [flip_length, flip_length] at hi
    obtain ⟨hc4, hxw, hyh, hrec⟩ := flat_decomp img.width img.height i (by omega)
    have hx' : img.width - 1 - i / 4 % img.width < img.width := by
      revert hxw
      generalize i / 4 % img.width = x
      intro hxw
      omega
    have hlen1 : (flip img "horizontal").data.length =
        (flip img "horizontal").width * (flip img "horizontal").height * 4 := by
      rw [flip_length]
      exact hlen
    have step1 := flip_h_getD (flip img "horizontal") hlen1 (i / 4 % img.width)
      (i / 4 / img.width) (i % 4) hxw hyh hc4
    have step2 := flip_h_getD img hlen (img.width - 1 - i / 4 % img.width)
      (i / 4 / img.width) (i % 4) hx' hyh hc4
    have hxx : img.width - 1 - (img.width - 1 - i / 4 % img.width) =
        i / 4 % img.width := by
      revert hxw
      generalize i / 4 % img.width = x
      intro hxw
      omega
    have hW : (flip img "horizontal").width = img.width := rfl
    rw [hW, hrec] at step1
    rw [hxx] at step2
    rw [step1, step2, hrec]

/-- Flipping twice about the vertical axis restores every sample. -/
theorem flip_v_involution (img : ImageDataQ)
    (hlen : img.data.length = img.width * img.height * 4) :
    flip (flip img "vertical") "vertical" = img := by
  refine ImageDataQ.ext_eq _ _ rfl rfl ?_
  apply eq_of_getD
  · rw [flip_length, flip_length]
  · intro i hi
    rw [flip_length, flip_length] at hi
    obtain ⟨hc4, hxw, hyh, hrec⟩ := flat_decomp img.width img.height i (by omega)
    have hy' : img.height - 1 - i / 4 / img.width < img.height := by
      revert hyh
      generalize i / 4 / img.width = y
      intro hyh
      omega
    have hlen1 : (flip img "vertical").data.length =
        (flip img "vertical").width * (flip img "vertical").height * 4 := by
      rw [flip_length]
      exact hlen
    have step1 := flip_v_getD (flip img "vertical") hlen1 (i / 4 % img.width)
      (i / 4 / img.width) (i % 4) hxw hyh hc4
    have step2 := flip_v_getD img hlen (i / 4 % img.width)
      (img.height - 1 - i / 4 / img.width) (i % 4) hxw hy' hc4
    have hyy : img.height - 1 - (img.height - 1 - i / 4 / img.width) =
        i / 4 / img.width := by
      revert hyh
      generalize i / 4 / img.width = y
      intro hyh
      omega
    have hW : (flip img "vertical").width = img.width := rfl
    have hH : (flip img "vertical").height = img.height := rfl
    rw [hW, hH, hrec] at step1
    rw [hyy] at step2
    rw [step1, step2, hrec]

/-- C9: `flip` keeps the buffer dimensions, mirrors every pixel about the
center axis (horizontal: (x,y) takes (width−1−x, y); vertical: (x,y)
takes (x, height−1−y)), and flipping twice about the same axis
reproduces the original buffer exactly, for both axes. -/
theorem c9_flip_involution (img : ImageDataQ)
    (hlen : img.data.length = img.width * img.height * 4) :
    ((flip img "horizontal").width = img.width ∧
      (flip img "horizontal").height = img.height ∧
      (flip img "vertical").width = img.width ∧
      (flip img "vertical").height = img.height ∧
      (flip img "horizontal").data.length = img.data.length ∧
      (flip img "vertical").data.length = img.data.length) ∧
    (∀ x y c, x < img.width → y < img.height → c < 4 →
      (flip img "horizontal").data.getD ((y * img.width + x) * 4 + c) 0 =
        img.data.getD ((y * img.width + (img.width - 1 - x)) * 4 + c) 0 ∧
      (flip img "vertical").data.getD ((y * img.width + x) * 4 + c) 0 =
        img.data.getD (((img.height - 1 - y) * img.width + x) * 4 + c) 0) ∧
    flip (flip img "horizontal") "horizontal" = img ∧
    flip (flip img "vertical") "vertical" = img := by
  refine ⟨⟨rfl, rfl, rfl, rfl, flip_length img "horizontal", flip_length img "vertical"⟩,
    ?_, flip_h_involution img hlen, flip_v_involution img hlen⟩
  intro x y c hx hy hc
  exact ⟨flip_h_getD img hlen x y c hx hy hc, flip_v_getD img hlen x y c hx hy hc⟩

/-- C9 witness: double flips restore a concrete 2×2 buffer. -/
theorem c9_flip_involution_witness :
    flip (flip ⟨2, 2, [1, 2, 3, 255, 4, 5, 6, 255,
                       7, 8, 9, 255, 10, 11, 12, 255]⟩ "horizontal") "horizontal" =
      ⟨2, 2, [1, 2, 3, 255, 4, 5, 6, 255, 7, 8, 9, 255, 10, 11, 12, 255]⟩ :=
  (c9_flip_involution ⟨2, 2, [1, 2, 3, 255, 4, 5, 6, 255,
      7, 8, 9, 255, 10, 11, 12, 255]⟩ (by decide)).2.2.1

/-- C6 witness: invariant preservation at a concrete mid-session state. -/
theorem c6_history_invariant_witness :
    (HistoryManager.init ℕ 3).Inv ∧ ((⟨[4, 5], 0, 3⟩ : HistoryManager ℕ).push 6).Inv ∧
      ((⟨[4, 5], 0, 3⟩ : HistoryManager ℕ).undo).1.Inv ∧
      ((⟨[4, 5], 0, 3⟩ : HistoryManager ℕ).redo).1.Inv ∧
      ((⟨[4, 5], 0, 3⟩ : HistoryManager ℕ).clear).Inv :=
  c6_history_invariant ℕ 3 (⟨[4, 5], 0, 3⟩ : HistoryManager ℕ) 6 (by decide)

end Photeditor
